import Mathlib

/-!
Verification of the Tabular ETL & Analysis Engine
(`ETLProcessor`, `DataImputation`, `EnhancedETLProcessor`).

The engine's dynamically typed cell values are modelled by the tagged union
`Value` below; JavaScript host arithmetic (`Number(..)`, `NaN`, `Infinity`,
division by zero, `Math.round`) is modelled exactly by `Option` results and
the four-variant `JsNum` type.  Rows are insertion-ordered association lists,
matching JavaScript object property order for string keys.

Exact rational arithmetic is carried by the canonical-fraction type `Q`
(an integer numerator and a positive reduced natural denominator), so that
every pipeline computation evaluates by kernel reduction.
-/

set_option maxRecDepth 100000

/-! ### Exact rationals -/

/-- An exact rational: numerator and denominator.  All constructors below
produce the canonical reduced form (positive denominator, coprime), so
structural equality of constructed values coincides with rational equality. -/
structure Q where
  n : ℤ
  d : ℕ
deriving DecidableEq, Repr

/-- Canonical form of the fraction `n / d` (a zero denominator, never produced
by the engine, is mapped to the canonical zero). -/
def Q.normPair (n : ℤ) (d : ℕ) : Q :=
  if d = 0 then ⟨0, 1⟩
  else
    let g := Nat.gcd n.natAbs d
    ⟨n / (g : ℤ), d / g⟩

/-- Canonical form of `n / d` for an integer denominator (sign moved to the
numerator). -/
def Q.normInt (n d : ℤ) : Q :=
  if d < 0 then Q.normPair (-n) (-d).toNat else Q.normPair n d.toNat

def Q.ofInt (i : ℤ) : Q := ⟨i, 1⟩

def Q.ofNat (k : ℕ) : Q := ⟨(k : ℤ), 1⟩

instance (k : ℕ) : OfNat Q k := ⟨Q.ofNat k⟩

def Q.add (a b : Q) : Q := Q.normPair (a.n * b.d + b.n * a.d) (a.d * b.d)

def Q.sub (a b : Q) : Q := Q.normPair (a.n * b.d - b.n * a.d) (a.d * b.d)

def Q.mul (a b : Q) : Q := Q.normPair (a.n * b.n) (a.d * b.d)

def Q.neg (a : Q) : Q := ⟨-a.n, a.d⟩

/-- Exact division `a / b` (the engine only divides by nonzero quantities;
division by zero yields the canonical zero here and is additionally guarded by
the explicit `JsNum` checks where the source could divide by zero). -/
def Q.div (a b : Q) : Q := Q.normInt (a.n * b.d) (a.d * b.n)

instance : Add Q := ⟨Q.add⟩
instance : Sub Q := ⟨Q.sub⟩
instance : Mul Q := ⟨Q.mul⟩
instance : Neg Q := ⟨Q.neg⟩
instance : Div Q := ⟨Q.div⟩

/-- Boolean `a ≤ b` by cross-multiplication (denominators are positive for
all constructed values). -/
def Q.ble (a b : Q) : Bool := a.n * (b.d : ℤ) ≤ b.n * (a.d : ℤ)

/-- Boolean `a < b`. -/
def Q.blt (a b : Q) : Bool := a.n * (b.d : ℤ) < b.n * (a.d : ℤ)

/-- Floor of a rational (`fdiv` rounds toward negative infinity, which is the
floor for the positive denominators produced here). -/
def Q.floor (a : Q) : ℤ := a.n.fdiv a.d

/-- Ceiling of a rational. -/
def Q.ceil (a : Q) : ℤ := -((-a.n).fdiv a.d)

theorem Q.normPair_d_pos (n : ℤ) (d : ℕ) : 0 < (Q.normPair n d).d := by
  unfold Q.normPair
  split
  · exact Nat.one_pos
  · next hd =>
    have hdpos : 0 < d := Nat.pos_of_ne_zero hd
    have hg : 0 < Nat.gcd n.natAbs d := Nat.gcd_pos_of_pos_right _ hdpos
    exact Nat.div_pos (Nat.le_of_dvd hdpos (Nat.gcd_dvd_right _ _)) hg

theorem Q.normInt_d_pos (n d : ℤ) : 0 < (Q.normInt n d).d := by
  unfold Q.normInt; split <;> exact Q.normPair_d_pos _ _

theorem Q.add_d_pos (a b : Q) : 0 < (Q.add a b).d := Q.normPair_d_pos _ _
theorem Q.sub_d_pos (a b : Q) : 0 < (Q.sub a b).d := Q.normPair_d_pos _ _
theorem Q.mul_d_pos (a b : Q) : 0 < (Q.mul a b).d := Q.normPair_d_pos _ _
theorem Q.div_d_pos (a b : Q) : 0 < (Q.div a b).d := Q.normInt_d_pos _ _

/-- Totality of the boolean order: if `¬ a ≤ b` then `b ≤ a`. -/
theorem Q.ble_of_not_ble {a b : Q} (h : Q.ble a b = false) : Q.ble b a = true := by
  simp only [Q.ble, decide_eq_false_iff_not, decide_eq_true_eq, not_le] at h ⊢
  exact le_of_lt h

/-! ### JavaScript-style strings over character lists

The Lean core string functions (`String.trim`, `String.splitOn`, …) do not
reduce in the kernel, so the engine's string manipulation is modelled by
structurally recursive functions over the underlying character list. -/

/-- Whitespace characters recognised by trimming. -/
def isWsChar (c : Char) : Bool :=
  c = ' ' || c = '\t' || c = '\n' || c = '\r' || c = '\x0b' || c = '\x0c'

/-- `s.trim`: drop surrounding whitespace. -/
def jsTrim (s : String) : String :=
  ⟨((s.data.dropWhile isWsChar).reverse.dropWhile isWsChar).reverse⟩

/-- Split a character list at a separator character. -/
def splitOnChar (sep : Char) : List Char → List (List Char)
  | [] => [[]]
  | c :: cs =>
      let r := splitOnChar sep cs
      if c = sep then [] :: r
      else
        match r with
        | h :: t => (c :: h) :: t
        | [] => [[c]]

/-- Decimal digit character for a value `< 10`. -/
def digitChar (n : ℕ) : Char := Char.ofNat (48 + n)

/-- Decimal digits of a natural number (structural in a fuel argument, which
`natToStr` always supplies amply). -/
def natDigits (fuel n : ℕ) : List Char :=
  match fuel with
  | 0 => []
  | fuel + 1 => if n < 10 then [digitChar n] else natDigits fuel (n / 10) ++ [digitChar (n % 10)]

/-- Decimal rendering of a natural number. -/
def natToStr (n : ℕ) : String := ⟨natDigits (n + 1) n⟩

/-- Decimal rendering of an integer. -/
def intToStr (i : ℤ) : String :=
  if i < 0 then ("-") ++ natToStr i.natAbs else natToStr i.natAbs

/-- Numeric value of a nonempty all-digit character list. -/
def decDigitsVal? (l : List Char) : Option ℕ :=
  if l.length > 0 ∧ l.all (fun c => c.isDigit) then
    some (l.foldl (fun a c => a * 10 + (c.toNat - 48)) 0)
  else none

/-! ### Cell values and rows -/

/-- A JavaScript scalar cell value.  `num none` is the IEEE `NaN` produced by
failed numeric conversions; finite numbers are carried exactly.  `null` and
`undefined` are kept distinct because `Number(null) = 0` while
`Number(undefined) = NaN`. -/
inductive Value where
  | null : Value
  | undef : Value
  | bool (b : Bool) : Value
  | num (x : Option Q) : Value
  | str (s : String) : Value
deriving DecidableEq, Repr

/-- A row object: an insertion-ordered association list from property name to
value, as JavaScript objects with string keys enumerate. -/
abbrev Row := List (String × Value)

/-- Property read `row[k]`: a missing key yields `undefined`. -/
def getVal (r : Row) (k : String) : Value :=
  match r.find? (fun kv => kv.1 = k) with
  | some kv => kv.2
  | none => Value.undef

/-- Property write `row[k] = v`: overwrites in place if the key exists
(keeping its position), otherwise appends the new key, as JavaScript does. -/
def setVal (r : Row) (k : String) (v : Value) : Row :=
  if r.any (fun kv => kv.1 = k) then
    r.map (fun kv => if kv.1 = k then (k, v) else kv)
  else r ++ [(k, v)]

/-- Unsigned decimal literal (`"12"`, `"3.5"`, `"1."`, `".5"`) as a rational. -/
def jsParseUnsigned (l : List Char) : Option Q :=
  match splitOnChar '.' l with
  | [i] => (decDigitsVal? i).map Q.ofNat
  | [i, f] =>
      if i.length = 0 ∧ f.length = 0 then none
      else if (i.length = 0 ∨ (decDigitsVal? i).isSome) ∧
              (f.length = 0 ∨ (decDigitsVal? f).isSome) then
        some (Q.add (Q.ofNat ((decDigitsVal? i).getD 0))
                (Q.div (Q.ofNat ((decDigitsVal? f).getD 0)) (Q.ofNat (10 ^ f.length))))
      else none
  | _ => none

/-- `Number(s)` for a string `s`: surrounding whitespace is ignored, the empty
(or all-whitespace) string converts to `0`, signed decimal literals convert to
their value, anything else is `NaN` (`none`).  Hexadecimal, exponent and
`Infinity` forms of the host language are not exercised by this code base and
are not modelled. -/
def jsParseNumber (s : String) : Option Q :=
  match (jsTrim s).data with
  | [] => some 0
  | '-' :: rest => (jsParseUnsigned rest).map Q.neg
  | '+' :: rest => jsParseUnsigned rest
  | cs => jsParseUnsigned cs

/-- `Number(v)` for an arbitrary value: `null → 0`, `undefined → NaN`,
booleans to `0/1`, numbers unchanged (`NaN` stays `NaN`). -/
def jsToNumber (v : Value) : Option Q :=
  match v with
  | .null => some 0
  | .undef => none
  | .bool b => some (if b then 1 else 0)
  | .num x => x
  | .str s => jsParseNumber s

/-- Decimal rendering of a rational for `String(number)`.  Integers render
exactly as the host does; non-integral rationals (never stringified on the
paths exercised here) use an explicit fraction marker. -/
def ratToJsString (q : Q) : String :=
  if q.d = 1 then intToStr q.n
  else intToStr q.n ++ "/" ++ natToStr q.d

/-- `String(v)` conversion. -/
def jsStringOf (v : Value) : String :=
  match v with
  | .null => "null"
  | .undef => "undefined"
  | .bool b => if b then ("true") else ("false")
  | .num none => "NaN"
  | .num (some q) => ratToJsString q
  | .str s => s

/-- Model of host date parsing (`Date.parse` / `new Date(..)`): accepts the
calendar forms `YYYY-MM-DD` and the canonical serialization
`YYYY-MM-DDT00:00:00.000Z`, yielding an abstract timestamp; every string the
claims exercise on date paths fails to parse in the hosts as well.  Non-string
values do not parse. -/
def parseYMD : List Char → Option ℤ
  | [y1, y2, y3, y4, '-', m1, m2, '-', d1, d2] =>
      match decDigitsVal? [y1, y2, y3, y4], decDigitsVal? [m1, m2], decDigitsVal? [d1, d2] with
      | some y, some m, some d =>
          if 1 ≤ m ∧ m ≤ 12 ∧ 1 ≤ d ∧ d ≤ 31 then some ((y : ℤ) * 10000 + m * 100 + d)
          else none
      | _, _, _ => none
  | _ => none

def jsDateParseChars (l : List Char) : Option ℤ :=
  let front := l.takeWhile (fun c => c ≠ 'T')
  let rest := l.dropWhile (fun c => c ≠ 'T')
  if rest = [] then parseYMD l
  else if rest = ['T', '0', '0', ':', '0', '0', ':', '0', '0', '.', '0', '0', '0', 'Z'] then
    parseYMD front
  else none

def jsDateParse (v : Value) : Option ℤ :=
  match v with
  | .str s => jsDateParseChars s.data
  | _ => none

/-- Two-digit zero-padded rendering. -/
def pad2 (n : ℕ) : String := if n < 10 then ("0") ++ natToStr n else natToStr n

/-- `date.toISOString()` for the abstract timestamps above. -/
def isoOf (t : ℤ) : String :=
  natToStr (t.toNat / 10000) ++ "-" ++ pad2 ((t.toNat / 100) % 100) ++ "-" ++
    pad2 (t.toNat % 100) ++ "T00:00:00.000Z"

/-- String escaping inside `JSON.stringify` (the identity on every string this
code base serializes; quotes and backslashes never occur in cell values
here). -/
def jsonEscape (s : String) : String := s

/-- `JSON.stringify` of a single value.  `NaN` (and the infinities, which the
claims never produce inside rows) serialize as `null`. -/
def jsonOfValue (v : Value) : String :=
  match v with
  | .null => "null"
  | .undef => "null"
  | .bool b => if b then ("true") else ("false")
  | .num none => "null"
  | .num (some q) => ratToJsString q
  | .str s => "\"" ++ jsonEscape s ++ "\""

/-- Comma-separated concatenation (structurally recursive stand-in for the
core intercalate, which does not kernel-reduce). -/
def commaJoin : List String → String
  | [] => ""
  | [s] => s
  | s :: rest => s ++ "," ++ commaJoin rest

/-- `JSON.stringify(row)`: properties in insertion order; `undefined`-valued
properties are omitted entirely, as the host does. -/
def jsonOfRow (r : Row) : String :=
  "\x7b" ++ commaJoin
    ((r.filter (fun kv => kv.2 ≠ Value.undef)).map
      (fun kv => "\"" ++ jsonEscape kv.1 ++ "\":" ++ jsonOfValue kv.2)) ++ "\x7d"

/-! ### JavaScript numbers with NaN and infinities

`generateQualityReport` divides by possibly-zero counts; the result of such a
division, and its propagation through `-`, `*`, `Math.min`, `Math.max` and
`Math.round`, follows IEEE semantics, modelled by the four-variant `JsNum`. -/

inductive JsNum where
  | nan : JsNum
  | posInf : JsNum
  | negInf : JsNum
  | fin (q : Q) : JsNum
deriving DecidableEq, Repr

/-- Division of two nonnegative counters: `0/0 = NaN`, `k/0 = +Infinity` for
`k > 0`. -/
def jsDivNat (a b : ℕ) : JsNum :=
  if b = 0 then (if a = 0 then .nan else .posInf)
  else .fin (Q.div (Q.ofNat a) (Q.ofNat b))

/-- Multiplication by a positive finite constant. -/
def jsMulPos (c : Q) (x : JsNum) : JsNum :=
  match x with
  | .nan => .nan
  | .posInf => .posInf
  | .negInf => .negInf
  | .fin q => .fin (Q.mul q c)

/-- IEEE subtraction. -/
def jsSub (a b : JsNum) : JsNum :=
  match a, b with
  | .nan, _ => .nan
  | _, .nan => .nan
  | .posInf, .posInf => .nan
  | .posInf, _ => .posInf
  | .negInf, .negInf => .nan
  | .negInf, _ => .negInf
  | .fin _, .posInf => .negInf
  | .fin _, .negInf => .posInf
  | .fin p, .fin q => .fin (Q.sub p q)

/-- `Math.min` (NaN-propagating). -/
def jsMin (a b : JsNum) : JsNum :=
  match a, b with
  | .nan, _ => .nan
  | _, .nan => .nan
  | .negInf, _ => .negInf
  | _, .negInf => .negInf
  | .posInf, x => x
  | x, .posInf => x
  | .fin p, .fin q => if Q.ble p q then .fin p else .fin q

/-- `Math.max` (NaN-propagating). -/
def jsMax (a b : JsNum) : JsNum :=
  match a, b with
  | .nan, _ => .nan
  | _, .nan => .nan
  | .posInf, _ => .posInf
  | _, .posInf => .posInf
  | .negInf, x => x
  | x, .negInf => x
  | .fin p, .fin q => if Q.ble p q then .fin q else .fin p

/-- `Math.round(q) = ⌊q + 1/2⌋` for finite arguments. -/
def roundQ (q : Q) : ℤ := Q.floor (Q.add q ⟨1, 2⟩)

/-- `Math.round` (NaN and infinities pass through). -/
def jsRound (x : JsNum) : JsNum :=
  match x with
  | .nan => .nan
  | .posInf => .posInf
  | .negInf => .negInf
  | .fin q => .fin (Q.ofInt (roundQ q))

/-! ### `ETLProcessor` -/

inductive ColType where
  | string : ColType
  | number : ColType
  | date : ColType
  | boolean : ColType
deriving DecidableEq, Repr

/-- Per-column statistics; `min`/`max`/`avg` are only present for numeric
columns, as in the source interface. -/
structure ColStats where
  min : Option Q
  max : Option Q
  avg : Option Q
  nullCount : ℕ
  uniqueCount : ℕ
deriving DecidableEq, Repr

structure DataColumn where
  name : String
  type : ColType
  nullable : Bool
  unique : Bool
  stats : ColStats
deriving DecidableEq, Repr

structure DataQualityReport where
  totalRows : ℕ
  totalColumns : ℕ
  duplicateRows : ℕ
  nullValues : ℕ
  dataTypes : List (String × ColType)
  qualityScore : JsNum
  issues : List String
  suggestions : List String
deriving DecidableEq, Repr

structure ProcessedData where
  data : List Row
  columns : List DataColumn
  qualityReport : DataQualityReport
  originalRowCount : ℕ
  cleanedRowCount : ℕ
deriving DecidableEq, Repr

/-- The filter `val !== null && val !== undefined && val !== ""` used both by
`detectDataTypes` and the empty-row check. -/
def isObservedValue (v : Value) : Bool :=
  v ≠ Value.null && v ≠ Value.undef && v ≠ Value.str ("")

/-- The boolean-literal test of `detectDataTypes`: an actual boolean or one of
the strings `"true"`, `"false"`, `"1"`, `"0"` (strict equality: a number `1`
does not match `"1"`). -/
def isBoolLiteral (v : Value) : Bool :=
  match v with
  | .bool _ => true
  | .str s => s = "true" || s = "false" || s = "1" || s = "0"
  | _ => false

/-- Number of distinct values (the size of `new Set(values)`). -/
def countDistinct (l : List Value) : ℕ :=
  (l.foldl (fun seen v => if v ∈ seen then seen else v :: seen) []).length

/-- Smallest element of a rational list (`Math.min(...values)`), `none` on the
empty list (which `detectDataTypes` never reaches for numeric columns, since a
column with no observed values types as boolean first). -/
def listMinQ : List Q → Option Q
  | [] => none
  | x :: xs =>
      match listMinQ xs with
      | none => some x
      | some m => some (if Q.ble x m then x else m)

def listMaxQ : List Q → Option Q
  | [] => none
  | x :: xs =>
      match listMaxQ xs with
      | none => some x
      | some m => some (if Q.ble m x then x else m)

def sumQ (l : List Q) : Q := l.foldl Q.add 0

/-- `ETLProcessor.detectDataTypes`: per header, collect the observed
(non-null, non-undefined, non-empty-string) values, then test boolean, number
and date in order, defaulting to string.  Note that every test uses
`Array.every`, which is vacuously true on an empty value list, so a column
with no observed values types as boolean. -/
def detectDataTypes (data : List Row) (headers : List String) : List DataColumn :=
  headers.map (fun header =>
    let values := (data.map (fun row => getVal row header)).filter isObservedValue
    let nullCount := data.length - values.length
    let uniqueCount := countDistinct values
    let type : ColType :=
      if values.all isBoolLiteral then .boolean
      else if values.all (fun v => (jsToNumber v).isSome && v ≠ Value.str ("")) then .number
      else if values.all (fun v => (jsDateParse v).isSome) then .date
      else .string
    let nums := values.map (fun v => (jsToNumber v).getD 0)
    let stats : ColStats :=
      if type = .number then
        ⟨listMinQ nums, listMaxQ nums,
         some (Q.div (sumQ nums) (Q.ofNat nums.length)), nullCount, uniqueCount⟩
      else ⟨none, none, none, nullCount, uniqueCount⟩
    { name := header, type := type, nullable := nullCount > 0,
      unique := uniqueCount = values.length, stats := stats })

/-- One cell of `ETLProcessor.cleanData`: null-likes become null, then the
cell is coerced to the column's detected type. -/
def cleanValue (type : ColType) (v : Value) : Value :=
  if v = Value.null ∨ v = Value.undef ∨ v = Value.str ("") then Value.null
  else
    match type with
    | .number =>
        match jsToNumber v with
        | none => Value.null
        | some q => Value.num (some q)
    | .boolean =>
        match v with
        | .bool b => .bool b
        | _ => .bool (v = Value.str ("true") || v = Value.str ("1") || v = Value.num (some 1))
    | .date =>
        match jsDateParse v with
        | none => Value.null
        | some t => Value.str (isoOf t)
    | .string => Value.str (jsTrim (jsStringOf v))

/-- `ETLProcessor.cleanData`: each cleaned row is rebuilt with exactly the
detected columns' keys, in column order. -/
def cleanData (data : List Row) (columns : List DataColumn) : List Row :=
  data.map (fun row => columns.map (fun c => (c.name, cleanValue c.type (getVal row c.name))))

/-- `ETLProcessor.removeDuplicates`, keyed by `JSON.stringify(row)`; keeps the
first occurrence of each key, counting the discarded later ones. -/
def removeDuplicatesAux : List Row → List String → (List Row × ℕ)
  | [], _ => ([], 0)
  | r :: rs, seen =>
      let key := jsonOfRow r
      if key ∈ seen then
        let p := removeDuplicatesAux rs seen
        (p.1, p.2 + 1)
      else
        let p := removeDuplicatesAux rs (key :: seen)
        (r :: p.1, p.2)

def removeDuplicates (data : List Row) : List Row × ℕ :=
  removeDuplicatesAux data []

/-- `ETLProcessor.generateQualityReport`.  The score arithmetic follows the
host exactly: `duplicateCount / originalRowCount` and
`nullValues / (totalRows * totalColumns)` are IEEE divisions (yielding `NaN`
on `0/0`), and `Math.max(0, Math.min(100, ..))` propagates `NaN`. -/
def generateQualityReport (data : List Row) (columns : List DataColumn)
    (originalRowCount duplicateCount : ℕ) : DataQualityReport :=
  let totalRows := data.length
  let totalColumns := columns.length
  let nullValues := columns.foldl (fun s c => s + c.stats.nullCount) 0
  let dupIssue : List (String × String) :=
    if duplicateCount > 0 then
      [("Found (" ++ natToStr duplicateCount ++ ") duplicate rows",
        "Consider reviewing data source for duplicate entries")]
    else []
  let missIssue : List (String × String) :=
    if Q.blt (Q.mul (Q.mul (Q.ofNat totalRows) (Q.ofNat totalColumns)) ⟨1, 10⟩)
        (Q.ofNat nullValues) then
      [("High number of missing values (" ++ natToStr nullValues ++ ")",
        "Consider data imputation or additional data collection")]
    else []
  let colIssues : List (String × String) :=
    (columns.filter (fun c =>
        Q.blt (Q.mul (Q.ofNat totalRows) ⟨1, 2⟩) (Q.ofNat c.stats.nullCount))).map
      (fun c =>
        ("Column \"" ++ c.name ++ "\" has >50% missing values",
         "Consider removing or imputing values for column \"" ++ c.name ++ "\""))
  let issuePairs := dupIssue ++ missIssue ++ colIssues
  let issues := issuePairs.map (fun p => p.1)
  let suggestions := issuePairs.map (fun p => p.2)
  let score1 := jsSub (.fin 100) (jsMulPos 20 (jsDivNat duplicateCount originalRowCount))
  let score2 := jsSub score1 (jsMulPos 30 (jsDivNat nullValues (totalRows * totalColumns)))
  let score3 := jsSub score2 (.fin (Q.ofNat (issues.length * 5)))
  let clamped := jsMax (.fin 0) (jsMin (.fin 100) score3)
  { totalRows := totalRows, totalColumns := totalColumns,
    duplicateRows := duplicateCount, nullValues := nullValues,
    dataTypes := columns.map (fun c => (c.name, c.type)),
    qualityScore := jsRound clamped,
    issues := issues, suggestions := suggestions }

/-- `ETLProcessor.transformData`: drop fully-empty rows, detect types, clean,
deduplicate, and report. -/
def transformData (rawData : List Row) (headers : List String) : ProcessedData :=
  let originalRowCount := rawData.length
  let cleaned1 := rawData.filter (fun row => row.any (fun kv => isObservedValue kv.2))
  let columns := detectDataTypes cleaned1 headers
  let cleaned2 := cleanData cleaned1 columns
  let dedup := removeDuplicates cleaned2
  let qualityReport := generateQualityReport dedup.1 columns originalRowCount dedup.2
  { data := dedup.1, columns := columns, qualityReport := qualityReport,
    originalRowCount := originalRowCount, cleanedRowCount := dedup.1.length }

/-! ### `DataImputation`

`imputeMissingData` copies the caller's array with a spread (`[...data]`), a
shallow copy: both arrays hold the same row objects, and every per-column
strategy assigns through those shared objects.  The model therefore returns
the final value of each row object; that list is simultaneously what the
caller's original array and the returned `imputedData` array display after the
call. -/

/-- `DataImputation.isNullOrEmpty`: null, undefined, the empty string, or a
string that is empty after trimming. -/
def isNullOrEmpty (v : Value) : Bool :=
  match v with
  | .null => true
  | .undef => true
  | .str s => s = "" || jsTrim s = ""
  | _ => false

/-- `DataImputation.countNullValues`. -/
def countNullValues (data : List Row) (column : String) : ℕ :=
  (data.filter (fun row => isNullOrEmpty (getVal row column))).length

/-- The filter of `imputeWithMean` / `imputeWithMedian`:
`val !== null && val !== undefined && val !== "" && !isNaN(Number(val))`,
followed by `.map(Number)`. -/
def numericValidValues (data : List Row) (column : String) : List Q :=
  (data.map (fun row => getVal row column)).filterMap (fun v =>
    if isObservedValue v then jsToNumber v else none)

/-- Stable ascending insertion (models the numeric sort `(a, b) => a - b`). -/
def insertAsc (x : Q) : List Q → List Q
  | [] => [x]
  | y :: ys => if Q.ble x y then x :: y :: ys else y :: insertAsc x ys

def sortAsc : List Q → List Q
  | [] => []
  | x :: xs => insertAsc x (sortAsc xs)

/-- The common write-back loop of the scalar strategies:
`data.forEach(row => { if (isNullOrEmpty(row[column])) row[column] = v })`. -/
def fillNulls (data : List Row) (column : String) (v : Value) : List Row :=
  data.map (fun row =>
    if isNullOrEmpty (getVal row column) then setVal row column v else row)

/-- `DataImputation.imputeWithMean`. -/
def imputeWithMean (data : List Row) (column : String) : List Row :=
  let validValues := numericValidValues data column
  if validValues.length = 0 then data
  else fillNulls data column
    (Value.num (some (Q.div (sumQ validValues) (Q.ofNat validValues.length))))

/-- `DataImputation.imputeWithMedian`. -/
def imputeWithMedian (data : List Row) (column : String) : List Row :=
  let validValues := sortAsc (numericValidValues data column)
  if validValues.length = 0 then data
  else
    let len := validValues.length
    let median : Q :=
      if len % 2 = 0 then
        Q.div (Q.add (validValues.getD (len / 2 - 1) 0) (validValues.getD (len / 2) 0)) 2
      else validValues.getD (len / 2) 0
    fillNulls data column (Value.num (some median))

/-- The valid-value filter of `imputeWithMode` (no numeric requirement):
`val !== null && val !== undefined && val !== ""`. -/
def modeValidValues (data : List Row) (column : String) : List Value :=
  (data.map (fun row => getVal row column)).filter isObservedValue

/-- Frequency tabulation `frequencies[String(val)] = (frequencies[key]||0)+1`
over an insertion-ordered record. -/
def tabulate (keys : List String) : List (String × ℕ) :=
  keys.foldl (fun acc k =>
    if acc.any (fun e => e.1 = k) then
      acc.map (fun e => if e.1 = k then (e.1, e.2 + 1) else e)
    else acc ++ [(k, 1)]) []

/-- Whether a string is a JavaScript array-index property key (the canonical
decimal form of an integer below `2^32 - 1`). -/
def isArrayIndexKey (s : String) : Bool :=
  match decDigitsVal? s.data with
  | some v => natToStr v = s && v < 4294967295
  | none => false

/-- Ascending insertion by numeric key value (array-index keys of one record
are pairwise distinct, so stability is moot). -/
def insertByKey (x : String × ℕ) : List (String × ℕ) → List (String × ℕ)
  | [] => [x]
  | y :: ys =>
      if ((decDigitsVal? x.1.data).getD 0) ≤ ((decDigitsVal? y.1.data).getD 0) then
        x :: y :: ys
      else y :: insertByKey x ys

def sortByKey : List (String × ℕ) → List (String × ℕ)
  | [] => []
  | x :: xs => insertByKey x (sortByKey xs)

/-- `Object.entries` enumeration order: array-index keys in ascending numeric
order first, then the remaining keys in insertion order. -/
def jsObjectEntries (rec : List (String × ℕ)) : List (String × ℕ) :=
  sortByKey (rec.filter (fun e => isArrayIndexKey e.1)) ++
    rec.filter (fun e => !isArrayIndexKey e.1)

/-- Stable descending insertion by count (models the required-stable host sort
`([,a],[,b]) => b - a`): an element is placed before the first element whose
count does not exceed it, so earlier-enumerated entries stay ahead of
equal-count later ones. -/
def insertDesc (x : String × ℕ) : List (String × ℕ) → List (String × ℕ)
  | [] => [x]
  | y :: ys => if y.2 ≤ x.2 then x :: y :: ys else y :: insertDesc x ys

def stableSortDesc : List (String × ℕ) → List (String × ℕ)
  | [] => []
  | x :: xs => insertDesc x (stableSortDesc xs)

/-- `DataImputation.imputeWithMode`: tabulate `String(val)` frequencies,
enumerate the record with `Object.entries`, stably sort by descending count,
and write the first entry's key (a string!) into every null/empty cell. -/
def imputeWithMode (data : List Row) (column : String) : List Row :=
  let validValues := modeValidValues data column
  if validValues.length = 0 then data
  else
    let entries := jsObjectEntries (tabulate (validValues.map jsStringOf))
    match stableSortDesc entries with
    | [] => data
    | m :: _ => fillNulls data column (Value.str m.1)

/-- The left-to-right pass of `imputeWithForwardFill`, carrying
`lastValidValue` (initially the JavaScript `null`). -/
def forwardFillAux (column : String) : Option Value → List Row → List Row
  | _, [] => []
  | last, row :: rest =>
      if isNullOrEmpty (getVal row column) then
        match last with
        | some v => setVal row column v :: forwardFillAux column (some v) rest
        | none => row :: forwardFillAux column none rest
      else row :: forwardFillAux column (some (getVal row column)) rest

def imputeWithForwardFill (data : List Row) (column : String) : List Row :=
  forwardFillAux column none data

/-- `imputeWithBackwardFill` loops from the last index down to 0 carrying
`nextValidValue`; that right-to-left in-place pass is exactly the mirror image
of the forward pass. -/
def imputeWithBackwardFill (data : List Row) (column : String) : List Row :=
  (forwardFillAux column none data.reverse).reverse

/-- One cell of the `numericData` snapshot taken by
`imputeWithInterpolation`: `none` for a null/empty cell, otherwise
`some (Number(value))` where the inner `none` is `NaN`. -/
def interpCell (v : Value) : Option (Option Q) :=
  if isNullOrEmpty v then none else some (jsToNumber v)

/-- Index of the closest non-null snapshot entry strictly before `i`. -/
def interpPrev (snap : List (Option (Option Q))) (i : ℕ) : Option ℕ :=
  ((List.range i).filter (fun p => (snap.getD p none).isSome)).getLast?

/-- Index of the closest non-null snapshot entry strictly after `i`. -/
def interpNext (snap : List (Option (Option Q))) (i : ℕ) : Option ℕ :=
  ((List.range snap.length).filter (fun p => decide (i < p) && (snap.getD p none).isSome)).head?

/-- `DataImputation.imputeWithInterpolation`: the snapshot `numericData` is
taken once up front; each null cell with both a preceding and a following
non-null snapshot entry is overwritten with
`prev + (next - prev)/steps * (i - prevIndex)` (a `NaN` bound propagates to a
`NaN` fill, exactly as host arithmetic does). -/
def interpStep (snap : List (Option (Option Q))) (column : String)
    (acc : List Row) (i : ℕ) : List Row :=
  if snap.getD i (some none) = none then
    match interpPrev snap i, interpNext snap i with
    | some p, some nx =>
        let fillVal : Option Q :=
          match snap.getD p none, snap.getD nx none with
          | some (some pv), some (some nv) =>
              some (Q.add pv (Q.mul
                (Q.div (Q.sub nv pv) (Q.sub (Q.ofNat nx) (Q.ofNat p)))
                (Q.sub (Q.ofNat i) (Q.ofNat p))))
          | _, _ => none
        match acc.get? i with
        | some row => acc.set i (setVal row column (Value.num fillVal))
        | none => acc
    | _, _ => acc
  else acc

def imputeWithInterpolation (data : List Row) (column : String) : List Row :=
  let snap := data.map (fun row => interpCell (getVal row column))
  (List.range data.length).foldl (interpStep snap column) data

/-- `DataImputation.imputeWithCustomValue`. -/
def imputeWithCustomValue (data : List Row) (column : String) (customValue : Value) :
    List Row :=
  fillNulls data column customValue

inductive ImputeMethod where
  | mean | median | mode | forwardFill | backwardFill | interpolation | custom
deriving DecidableEq, Repr

structure ImputationStrategy where
  column : String
  method : ImputeMethod
  customValue : Value
deriving DecidableEq, Repr

structure ImputationResult where
  originalNullCount : ℕ
  imputedCount : ℤ
  method : ImputeMethod
  success : Bool
deriving DecidableEq, Repr

/-- Dispatch of one strategy. -/
def applyStrategy (rows : List Row) (s : ImputationStrategy) : List Row :=
  match s.method with
  | .mean => imputeWithMean rows s.column
  | .median => imputeWithMedian rows s.column
  | .mode => imputeWithMode rows s.column
  | .forwardFill => imputeWithForwardFill rows s.column
  | .backwardFill => imputeWithBackwardFill rows s.column
  | .interpolation => imputeWithInterpolation rows s.column
  | .custom => imputeWithCustomValue rows s.column s.customValue

/-- Record update `results[column] = r` (replace in place or append). -/
def upsertResult (acc : List (String × ImputationResult)) (k : String)
    (r : ImputationResult) : List (String × ImputationResult) :=
  if acc.any (fun e => e.1 = k) then
    acc.map (fun e => if e.1 = k then (k, r) else e)
  else acc ++ [(k, r)]

/-- `DataImputation.imputeMissingData`.  Because the spread copy shares the
row objects, `this.countNullValues(data, ..)` inside the loop reads the rows
as already mutated by earlier strategies; the model threads the single row
state accordingly.  No strategy can throw in this model (none can in the
source on the value domain modelled here), so every per-column result reports
`success: true`. -/
def imputeMissingData (data : List Row) (columns : List DataColumn)
    (strategies : List ImputationStrategy) :
    List Row × List (String × ImputationResult) :=
  strategies.foldl (fun st s =>
    if (columns.find? (fun c => c.name = s.column)).isNone then st
    else
      let originalNullCount := countNullValues st.1 s.column
      let rows := applyStrategy st.1 s
      let finalNullCount := countNullValues rows s.column
      (rows, upsertResult st.2 s.column
        ⟨originalNullCount, (originalNullCount : ℤ) - (finalNullCount : ℤ), s.method, true⟩))
    (data, [])

/-! ### `EnhancedETLProcessor`: outliers and correlations -/

structure OutlierEntry where
  column : String
  method : String
  count : ℕ
  values : List Q
deriving DecidableEq, Repr

/-- `EnhancedETLProcessor.percentile` on an ascending-sorted value list:
linear interpolation between the two neighbouring order statistics. -/
def percentile (values : List Q) (p : Q) : Q :=
  let index : Q := Q.mul (Q.div p 100) (Q.sub (Q.ofNat values.length) 1)
  let lower : ℤ := Q.floor index
  let upper : ℤ := Q.ceil index
  let weight : Q := Q.sub index (Q.ofInt lower)
  if (values.length : ℤ) ≤ upper then values.getD (values.length - 1) 0
  else
    Q.add (Q.mul (values.getD lower.toNat 0) (Q.sub 1 weight))
      (Q.mul (values.getD upper.toNat 0) weight)

/-- The Z-score test `|v - mean| / stdDev > 3` where
`stdDev = Math.sqrt(variance)`, rendered exactly over the rationals: for a
positive variance the comparison is equivalent to `(v - mean)² > 9·variance`,
and for a zero variance the host computes `|v - mean| / 0`, which exceeds 3
exactly when `v ≠ mean` (`0/0` is `NaN`, and `NaN > 3` is false). -/
def zScoreExceeds3 (variance v mean : Q) : Bool :=
  if variance = 0 then v ≠ mean
  else Q.blt (Q.mul 9 variance) (Q.mul (Q.sub v mean) (Q.sub v mean))

/-- `EnhancedETLProcessor.detectAdvancedOutliers`: per numeric column with
more than 4 parseable values, an IQR entry (1.5·IQR fences around the
interpolated quartiles) and a Z-score entry, each only when nonempty, in that
push order. -/
def detectAdvancedOutliers (data : List Row) (columns : List DataColumn) :
    List OutlierEntry :=
  (columns.filter (fun c => c.type = ColType.number)).flatMap (fun col =>
    let values := sortAsc ((data.map (fun row =>
      jsToNumber (getVal row col.name))).filterMap id)
    if 4 < values.length then
      let q1 := percentile values 25
      let q3 := percentile values 75
      let iqr := Q.sub q3 q1
      let lowerBound := Q.sub q1 (Q.mul ⟨3, 2⟩ iqr)
      let upperBound := Q.add q3 (Q.mul ⟨3, 2⟩ iqr)
      let iqrOutliers := values.filter (fun v =>
        Q.blt v lowerBound || Q.blt upperBound v)
      let iqrEntries : List OutlierEntry :=
        if iqrOutliers.length > 0 then
          [⟨col.name, "IQR", iqrOutliers.length, iqrOutliers.take 10⟩]
        else []
      let mean := Q.div (sumQ values) (Q.ofNat values.length)
      let variance := Q.div
        (sumQ (values.map (fun v => Q.mul (Q.sub v mean) (Q.sub v mean))))
        (Q.ofNat values.length)
      let zOutliers := values.filter (fun v => zScoreExceeds3 variance v mean)
      let zEntries : List OutlierEntry :=
        if zOutliers.length > 0 then
          [⟨col.name, "Z-Score", zOutliers.length, zOutliers.take 10⟩]
        else []
      iqrEntries ++ zEntries
    else [])

structure CorrEntry where
  column1 : String
  column2 : String
  correlation : Q
deriving DecidableEq, Repr

def sumProdQ (xs ys : List Q) : Q := ((xs.zip ys).map (fun p => Q.mul p.1 p.2)).foldl Q.add 0

/-- Numerator `n·Σxy − Σx·Σy` of the Pearson formula (over the first
`n = min(|x|,|y|)` elements, as the source slices). -/
def pearsonNumerator (x y : List Q) : Q :=
  let n := min x.length y.length
  let xs := x.take n
  let ys := y.take n
  Q.sub (Q.mul (Q.ofNat n) (sumProdQ xs ys)) (Q.mul (sumQ xs) (sumQ ys))

/-- The square of the Pearson denominator,
`(n·Σx² − (Σx)²)·(n·Σy² − (Σy)²)`; the source takes its square root. -/
def pearsonDenomSq (x y : List Q) : Q :=
  let n := min x.length y.length
  let xs := x.take n
  let ys := y.take n
  Q.mul (Q.sub (Q.mul (Q.ofNat n) (sumProdQ xs xs)) (Q.mul (sumQ xs) (sumQ xs)))
    (Q.sub (Q.mul (Q.ofNat n) (sumProdQ ys ys)) (Q.mul (sumQ ys) (sumQ ys)))

/-- `EnhancedETLProcessor.calculatePearsonCorrelation`, parametrized by the
host square-root function `sqrt` (exact square roots are irrational in
general; every theorem below assumes only `sqrt 0 = 0`, and where needed that
`sqrt` vanishes only at 0 — both true of the IEEE square root on the
nonnegative arguments supplied here). -/
def calculatePearsonCorrelation (sqrt : Q → Q) (x y : List Q) : Q :=
  let n := min x.length y.length
  if n = 0 then 0
  else
    let denominator := sqrt (pearsonDenomSq x y)
    if denominator = 0 then 0 else Q.div (pearsonNumerator x y) denominator

/-- The `i < j` double loop over a list, in loop order. -/
def allPairs : List α → List (α × α)
  | [] => []
  | x :: xs => xs.map (fun y => (x, y)) ++ allPairs xs

/-- The co-observation list for two columns: `Number` of both cells, keeping
the rows where neither is `NaN`. -/
def corrPairs (data : List Row) (c1 c2 : String) : List (Q × Q) :=
  data.filterMap (fun row =>
    match jsToNumber (getVal row c1), jsToNumber (getVal row c2) with
    | some a, some b => some (a, b)
    | _, _ => none)

/-- `EnhancedETLProcessor.calculateAdvancedCorrelations`: every `i < j` pair
of numeric columns with more than one co-observation contributes one entry. -/
def calculateAdvancedCorrelations (sqrt : Q → Q) (data : List Row)
    (columns : List DataColumn) : List CorrEntry :=
  (allPairs (columns.filter (fun c => c.type = ColType.number))).filterMap (fun pr =>
    let ps := corrPairs data pr.1.name pr.2.name
    if 1 < ps.length then
      some ⟨pr.1.name, pr.2.name,
        calculatePearsonCorrelation sqrt (ps.map (fun p => p.1)) (ps.map (fun p => p.2))⟩
    else none)

/-! ### Concrete datasets used by the claims -/

/-- The rows of C6's example: `[{a:"1"},{a:"2"},{a:null},{a:"4"}]`. -/
def exampleRowsA : List Row :=
  [[("a", Value.str ("1"))], [("a", Value.str ("2"))], [("a", Value.null)], [("a", Value.str ("4"))]]

/-- A numeric column named `v`, as detected for the values `[1,2,3,4,100]`. -/
def outlierCol : DataColumn := ⟨"v", ColType.number, false, true, ⟨none, none, none, 0, 5⟩⟩

/-- The data of the outlier example: values `[1,2,3,4,100]` in column `v`. -/
def outlierData : List Row :=
  [[("v", Value.num (some 1))], [("v", Value.num (some 2))], [("v", Value.num (some 3))],
   [("v", Value.num (some 4))], [("v", Value.num (some 100))]]

/-- A boolean column with no nulls, used where the quality report needs some
column input. -/
def allNullCol : DataColumn := ⟨"a", ColType.boolean, false, true, ⟨none, none, none, 0, 0⟩⟩

/-! ### C6 -/

/-- **C6.** For rows `[{a:"1"},{a:"2"},{a:null},{a:"4"}]` on numeric column
`a`, median imputation fills the null cell with `2` (the median of `[1,2,4]`),
while interpolation imputation instead fills it with `3` (linear between the
neighbours `2` and `4`); all other cells are untouched. -/
theorem median_interpolation_example :
    imputeWithMedian exampleRowsA ("a") =
      [[("a", Value.str ("1"))], [("a", Value.str ("2"))],
       [("a", Value.num (some 2))], [("a", Value.str ("4"))]] ∧
    imputeWithInterpolation exampleRowsA ("a") =
      [[("a", Value.str ("1"))], [("a", Value.str ("2"))],
       [("a", Value.num (some 3))], [("a", Value.str ("4"))]] := by
  constructor <;> decide

/-! ### C2 -/

/-- **C2, counterexample.** A column with zero non-null, non-empty observed
values is inferred as `boolean`, not `string`: every type test in
`detectDataTypes` uses `Array.every`, which is vacuously true on the empty
observed-value list, so the first test (boolean) wins. -/
theorem detectDataTypes_allnull_infers_boolean_cex :
    (detectDataTypes [[("a", Value.null)]] ["a"]).map (fun c => c.type) =
      [ColType.boolean] := by
  decide

/-- **C2, amended.** For every header whose column has zero non-null,
non-empty observed values, `detectDataTypes` infers type `boolean` (the
vacuously-true first test) — not `string` — with `nullCount` equal to the row
count and `uniqueCount` 0, and raises no exception (the function is total). -/
theorem detectDataTypes_allnull_column (data : List Row) (headers : List String) :
    ∀ col ∈ detectDataTypes data headers,
      (∀ row ∈ data, isObservedValue (getVal row col.name) = false) →
      col.type = ColType.boolean ∧ col.stats.nullCount = data.length ∧
        col.stats.uniqueCount = 0 := by
  intro col hcol hnull
  unfold detectDataTypes at hcol
  rw [List.mem_map] at hcol
  obtain ⟨h, hh, rfl⟩ := hcol
  have hname : (fun header => ((data.map (fun row => getVal row header)).filter
      isObservedValue).length) h = 0 := by
    have hv : (data.map (fun row => getVal row h)).filter isObservedValue = [] := by
      rw [List.filter_eq_nil_iff]
      intro v hv
      rw [List.mem_map] at hv
      obtain ⟨row, hrow, rfl⟩ := hv
      simpa using hnull row hrow
    simpa using congrArg List.length hv
  have hv : (data.map (fun row => getVal row h)).filter isObservedValue = [] :=
    List.length_eq_zero.mp hname
  refine ⟨?_, ?_, ?_⟩ <;> simp only [hv, List.all_nil, countDistinct, List.foldl_nil,
    List.length_nil, if_true, Nat.sub_zero] <;> rfl

/-- Witness for C2: the concrete one-row all-null dataset, with the theorem's
hypotheses discharged at the concrete column it produces. -/
theorem detectDataTypes_allnull_column_witness :
    ((⟨"a", ColType.boolean, true, true, ⟨none, none, none, 1, 0⟩⟩ : DataColumn) ∈
        detectDataTypes [[("a", Value.null)]] ["a"] ∧
      (∀ row ∈ ([[("a", Value.null)]] : List Row), isObservedValue (getVal row ("a")) = false)) ∧
    ((⟨"a", ColType.boolean, true, true, ⟨none, none, none, 1, 0⟩⟩ : DataColumn).type =
        ColType.boolean ∧
      (⟨"a", ColType.boolean, true, true, ⟨none, none, none, 1, 0⟩⟩ : DataColumn).stats.nullCount =
        ([[("a", Value.null)]] : List Row).length ∧
      (⟨"a", ColType.boolean, true, true, ⟨none, none, none, 1, 0⟩⟩ : DataColumn).stats.uniqueCount
        = 0) :=
  ⟨⟨by decide, by decide⟩,
   detectDataTypes_allnull_column [[("a", Value.null)]] ["a"] _ (by decide) (by decide)⟩

/-! ### C4 -/

/-- **C4, counterexample.** On the values `[1,2,3,4,100]` the Z-score method
flags nothing at all: the population standard deviation is `√1522 ≈ 39.01`,
so the largest score is `|100 − 22|/√1522 ≈ 2.0`, not above 3.  No `Z-Score`
entry is produced (entries are only pushed when nonempty), contradicting the
claim that `100` is flagged by both methods. -/
theorem detectAdvancedOutliers_no_zscore_cex :
    ¬ ∃ e ∈ detectAdvancedOutliers outlierData [outlierCol], e.method = "Z-Score" := by
  decide

/-- **C4, amended.** On the values `[1,2,3,4,100]` the IQR method (quartiles
by linear-interpolated percentile, 1.5·IQR fences) flags exactly `100`; the
Z-score method flags nothing, because `(100 − 22)² = 6084 ≤ 9·1522 = 13698`,
i.e. `|100 − mean|/stdDev ≈ 2.0 < 3` — so the only outlier entry produced is
the IQR one. -/
theorem detectAdvancedOutliers_example_iqr_only :
    detectAdvancedOutliers outlierData [outlierCol] =
      [⟨"v", "IQR", 1, [⟨100, 1⟩]⟩] := by
  decide

/-! ### C1, counterexample -/

/-- **C1, counterexample.** `generateQualityReport` has no zero-division
guard: on an empty dataset (`originalRowCount = 0`, so also
`duplicateCount = 0` and `totalRows = 0`) both penalty divisions are `0/0`,
which is `NaN`; `NaN` survives `Math.max(0, Math.min(100, ·))` and
`Math.round`, so the reported `qualityScore` is `NaN` — not a real number in
`[0, 100]`. -/
theorem generateQualityReport_nan_cex :
    (generateQualityReport [] [allNullCol] 0 0).qualityScore = JsNum.nan := by
  decide

/-! ### C7 -/

/-- The raw rows refuting pipeline idempotence: `"true"`, `" 1"` (leading
space), `"false"`.  The first pass types the column as string (the space
defeats the boolean-literal test, `Number ("true")` is `NaN`, `Date.parse`
fails) and trims to `"true"`, `"1"`, `"false"`; the second pass then types the
column as boolean and coerces both `"true"` and `"1"` to `true`, merging two
previously distinct rows. -/
def dedupCexRaw : List Row :=
  [[("a", Value.str ("true"))], [("a", Value.str (" 1"))], [("a", Value.str ("false"))]]

/-- **C7, counterexample.** Running `transformData` a second time on the data
output of a first run (same headers) reports `duplicateRows = 1`, not `0`:
re-detection re-types the cleaned string column as boolean and the
re-coercion maps `{a:"true"}` and `{a:"1"}` to the identical row `{a:true}`. -/
theorem transformData_second_pass_duplicates_cex :
    (transformData (transformData dedupCexRaw ["a"]).data ["a"]).qualityReport.duplicateRows
      = 1 := by
  decide

/-- Keys of the deduplicated output are pairwise distinct and disjoint from
the `seen` accumulator. -/
theorem removeDuplicatesAux_keys (l : List Row) :
    ∀ seen : List String,
      ((removeDuplicatesAux l seen).1.map jsonOfRow).Nodup ∧
      (∀ k ∈ (removeDuplicatesAux l seen).1.map jsonOfRow, k ∉ seen) := by
  induction l with
  | nil => intro seen; simp [removeDuplicatesAux]
  | cons r rs ih =>
      intro seen
      by_cases hmem : jsonOfRow r ∈ seen
      · simpa [removeDuplicatesAux, hmem] using ih seen
      · have hrec := ih (jsonOfRow r :: seen)
        refine ⟨?_, ?_⟩
        · simp only [removeDuplicatesAux, if_neg hmem, List.map_cons, List.nodup_cons]
          exact ⟨fun hk => (hrec.2 _ hk) (List.mem_cons_self _ _), hrec.1⟩
        · intro k hk
          simp only [removeDuplicatesAux, if_neg hmem, List.map_cons, List.mem_cons] at hk
          rcases hk with rfl | hk
          · exact hmem
          · exact fun hs => (hrec.2 _ hk) (List.mem_cons_of_mem _ hs)

/-- On a list with pairwise-distinct serializations, none already seen, the
duplicate counter stays 0. -/
theorem removeDuplicatesAux_count_zero (l : List Row) :
    ∀ seen : List String, (l.map jsonOfRow).Nodup →
      (∀ k ∈ l.map jsonOfRow, k ∉ seen) → (removeDuplicatesAux l seen).2 = 0 := by
  induction l with
  | nil => intro seen _ _; rfl
  | cons r rs ih =>
      intro seen hnd hdisj
      have hmem : jsonOfRow r ∉ seen := hdisj _ (by simp)
      simp only [removeDuplicatesAux, if_neg hmem]
      apply ih
      · exact (List.nodup_cons.mp (by simpa using hnd)).2
      · intro k hk
        rw [List.mem_cons]
        rintro (rfl | hs)
        · exact (List.nodup_cons.mp (by simpa using hnd)).1 hk
        · exact hdisj _ (by simp [hk]) hs

/-- **C7, amended.** Duplicate removal itself is idempotent: applying
`removeDuplicates` to its own output reports `duplicateCount = 0` — but the
full pipeline is not idempotent, because a second `transformData` run
re-infers column types on the cleaned data and its re-coercion can merge rows
that the first pass left distinct (see the counterexample). -/
theorem removeDuplicates_idempotent (data : List Row) :
    (removeDuplicates (removeDuplicates data).1).2 = 0 := by
  have h := removeDuplicatesAux_keys data []
  exact removeDuplicatesAux_count_zero _ [] h.1 (fun k _ => List.not_mem_nil k)

/-! ### Row-cell lemmas -/

theorem find?_replace_self (k : String) (v : Value) :
    ∀ r : Row,
      (r.map (fun kv => if kv.1 = k then (k, v) else kv)).find? (fun kv => kv.1 = k) =
        (r.find? (fun kv => kv.1 = k)).map (fun _ => (k, v))
  | [] => rfl
  | kv :: rest => by
      by_cases hk : kv.1 = k
      · simp [List.find?, hk]
      · simp only [List.map_cons, if_neg hk, List.find?]
        simp [hk, find?_replace_self k v rest]

theorem find?_replace_ne (k c : String) (v : Value) (hck : c ≠ k) :
    ∀ r : Row,
      (r.map (fun kv => if kv.1 = k then (k, v) else kv)).find? (fun kv => kv.1 = c) =
        r.find? (fun kv => kv.1 = c)
  | [] => rfl
  | kv :: rest => by
      by_cases hk : kv.1 = k
      · have hc : ¬ kv.1 = c := fun hcc => hck (hcc.symm.trans hk)
        simp only [List.map_cons, if_pos hk, List.find?]
        simp [show ¬ (k = c) from fun h => hck h.symm, hc, find?_replace_ne k c v hck rest]
      · simp only [List.map_cons, if_neg hk, List.find?]
        by_cases hc : kv.1 = c
        · simp [hc]
        · simp [hc, find?_replace_ne k c v hck rest]

theorem find?_append_none {p : String × Value → Bool} :
    ∀ (r l₂ : Row), r.find? p = none → (r ++ l₂).find? p = l₂.find? p
  | [], _, _ => rfl
  | kv :: rest, l₂, h => by
      by_cases hp : p kv = true
      · simp [List.find?, hp] at h
      · simp only [List.cons_append, List.find?,
          show p kv = false from Bool.eq_false_iff.mpr hp]
        refine find?_append_none rest l₂ ?_
        simpa [List.find?, show p kv = false from Bool.eq_false_iff.mpr hp] using h

theorem find?_append_some {p : String × Value → Bool} :
    ∀ (r l₂ : Row) (e : String × Value), r.find? p = some e → (r ++ l₂).find? p = some e
  | [], _, _, h => by simp [List.find?] at h
  | kv :: rest, l₂, e, h => by
      by_cases hp : p kv = true
      · simp only [List.find?, hp] at h
        simp [List.find?, hp, h]
      · have hpf : p kv = false := Bool.eq_false_iff.mpr hp
        simp only [List.find?, hpf] at h
        simp only [List.cons_append, List.find?, hpf]
        exact find?_append_some rest l₂ e h

theorem any_false_find?_none (k : String) :
    ∀ r : Row, r.any (fun kv => kv.1 = k) = false →
      r.find? (fun kv => kv.1 = k) = none
  | [] , _ => rfl
  | kv :: rest, h => by
      rw [List.any_cons, Bool.or_eq_false_iff] at h
      simp only [List.find?, h.1]
      exact any_false_find?_none k rest h.2

theorem getVal_setVal_self (r : Row) (k : String) (v : Value) :
    getVal (setVal r k v) k = v := by
  unfold setVal getVal
  by_cases hany : r.any (fun kv => kv.1 = k) = true
  · rw [if_pos hany, find?_replace_self]
    cases hfind : r.find? (fun kv => decide (kv.1 = k)) with
    | none =>
        exfalso
        obtain ⟨x, hx, hpx⟩ := List.any_eq_true.mp hany
        have hnone := List.find?_eq_none.mp hfind x hx
        exact hnone hpx
    | some e => rfl
  · rw [if_neg hany]
    have hnone : r.find? (fun kv => decide (kv.1 = k)) = none :=
      any_false_find?_none k r (Bool.eq_false_iff.mpr hany)
    rw [find?_append_none _ _ hnone]
    simp [List.find?]

theorem getVal_setVal_ne (r : Row) (k c : String) (v : Value) (h : c ≠ k) :
    getVal (setVal r k v) c = getVal r c := by
  unfold setVal getVal
  by_cases hany : r.any (fun kv => kv.1 = k) = true
  · rw [if_pos hany, find?_replace_ne k c v h]
  · rw [if_neg hany]
    cases hfind : r.find? (fun kv => decide (kv.1 = c)) with
    | some e => rw [find?_append_some _ _ _ hfind]
    | none =>
        rw [find?_append_none _ _ hfind]
        simp [List.find?, Ne.symm h]

/-! ### The frame relation of in-place imputation

Every imputation strategy writes only into null/empty cells; the relation
`PreservesValid before after` states that the two row lists correspond
pointwise and that every cell that was not null/empty kept its value. -/

def cellsKept (r r' : Row) : Prop :=
  ∀ c : String, isNullOrEmpty (getVal r c) = false → getVal r' c = getVal r c

def PreservesValid (before after : List Row) : Prop :=
  List.Forall₂ cellsKept before after

theorem cellsKept_refl (r : Row) : cellsKept r r := fun _ _ => rfl

theorem cellsKept_trans {a b c : Row} (h1 : cellsKept a b) (h2 : cellsKept b c) :
    cellsKept a c := by
  intro k hk
  have hb := h1 k hk
  have hbvalid : isNullOrEmpty (getVal b k) = false := by rw [hb]; exact hk
  rw [h2 k hbvalid, hb]

theorem preservesValid_refl (l : List Row) : PreservesValid l l :=
  List.forall₂_same.mpr (fun r _ => cellsKept_refl r)

theorem preservesValid_trans : ∀ {a b c : List Row},
    PreservesValid a b → PreservesValid b c → PreservesValid a c
  | [], [], [], _, _ => List.Forall₂.nil
  | _ :: _, _ :: _, _ :: _, List.Forall₂.cons h1 t1, List.Forall₂.cons h2 t2 =>
      List.Forall₂.cons (cellsKept_trans h1 h2) (preservesValid_trans t1 t2)

/-- Writing `v` into a null/empty `column` cell keeps all valid cells. -/
theorem cellsKept_setVal {r : Row} {column : String} (v : Value)
    (hnull : isNullOrEmpty (getVal r column) = true) : cellsKept r (setVal r column v) := by
  intro c hc
  by_cases hcc : c = column
  · rw [hcc] at hc; rw [hc] at hnull; exact absurd hnull (by simp)
  · exact getVal_setVal_ne r column c v hcc

theorem preservesValid_fillNulls (data : List Row) (column : String) (v : Value) :
    PreservesValid data (fillNulls data column v) := by
  unfold PreservesValid fillNulls
  rw [List.forall₂_map_right_iff]
  refine List.forall₂_same.mpr (fun r _ => ?_)
  by_cases hnull : isNullOrEmpty (getVal r column) = true
  · rw [if_pos hnull]; exact cellsKept_setVal v hnull
  · rw [if_neg hnull]; exact cellsKept_refl r

theorem preservesValid_forwardFillAux (column : String) :
    ∀ (last : Option Value) (data : List Row),
      PreservesValid data (forwardFillAux column last data)
  | _, [] => List.Forall₂.nil
  | last, row :: rest => by
      unfold forwardFillAux
      by_cases hnull : isNullOrEmpty (getVal row column) = true
      · rw [if_pos hnull]
        match last with
        | some v =>
            exact List.Forall₂.cons (cellsKept_setVal v hnull)
              (preservesValid_forwardFillAux column (some v) rest)
        | none =>
            exact List.Forall₂.cons (cellsKept_refl row)
              (preservesValid_forwardFillAux column none rest)
      · rw [if_neg hnull]
        exact List.Forall₂.cons (cellsKept_refl row)
          (preservesValid_forwardFillAux column _ rest)

theorem preservesValid_forwardFill (data : List Row) (column : String) :
    PreservesValid data (imputeWithForwardFill data column) :=
  preservesValid_forwardFillAux column none data

theorem preservesValid_backwardFill (data : List Row) (column : String) :
    PreservesValid data (imputeWithBackwardFill data column) := by
  unfold imputeWithBackwardFill PreservesValid
  rw [show data = data.reverse.reverse from (List.reverse_reverse data).symm]
  rw [List.forall₂_reverse_iff, List.reverse_reverse]
  exact preservesValid_forwardFillAux column none data.reverse

theorem forall₂_get?_right {α β : Type _} {R : α → β → Prop} :
    ∀ {l₁ : List α} {l₂ : List β}, List.Forall₂ R l₁ l₂ →
      ∀ (i : ℕ) (b : β), l₂.get? i = some b → ∃ a, l₁.get? i = some a ∧ R a b
  | _, _, List.Forall₂.nil, i, b, h => by simp at h
  | _, _, List.Forall₂.cons hr _, 0, b, h => by
      simp only [List.get?] at h
      exact ⟨_, rfl, (Option.some_inj.mp h) ▸ hr⟩
  | _, _, List.Forall₂.cons _ ht, i + 1, b, h =>
      forall₂_get?_right ht i b (by simpa using h)

theorem forall₂_set_right {α β : Type _} {R : α → β → Prop} :
    ∀ {l₁ : List α} {l₂ : List β}, List.Forall₂ R l₁ l₂ → ∀ (i : ℕ) (x : β),
      (∀ a, l₁.get? i = some a → R a x) → List.Forall₂ R l₁ (l₂.set i x)
  | _, _, List.Forall₂.nil, _, _, _ => List.Forall₂.nil
  | _, _, List.Forall₂.cons hr ht, 0, x, hx =>
      List.Forall₂.cons (hx _ rfl) ht
  | _, _, List.Forall₂.cons hr ht, i + 1, x, hx =>
      List.Forall₂.cons hr
        (forall₂_set_right ht i x (fun a ha => hx a (by simpa using ha)))

theorem preservesValid_interpStep (data : List Row) (column : String) (i : ℕ)
    (acc : List Row) (h : PreservesValid data acc) :
    PreservesValid data
      (interpStep (data.map (fun row => interpCell (getVal row column))) column acc i) := by
  unfold interpStep
  split
  · next hsnap =>
    split
    · next p nx _ _ =>
      cases hacc : acc.get? i with
      | none => simpa [hacc] using h
      | some row =>
          simp only [hacc]
          obtain ⟨di, hdi, hkept⟩ := forall₂_get?_right h i row hacc
          have hnull : isNullOrEmpty (getVal di column) = true := by
            have hmap : (data.map (fun row => interpCell (getVal row column))).get? i =
                some (interpCell (getVal di column)) := by
              rw [List.get?_eq_getElem?, List.getElem?_map, ← List.get?_eq_getElem?, hdi]
              rfl
            have : (data.map (fun row => interpCell (getVal row column))).getD i
                (some none) = interpCell (getVal di column) := by
              unfold List.getD
              rw [hmap]; rfl
            rw [this] at hsnap
            unfold interpCell at hsnap
            by_contra hne
            rw [if_neg (by simpa using hne)] at hsnap
            exact Option.some_ne_none _ hsnap
          refine forall₂_set_right h i _ (fun a ha => ?_)
          have haeq : a = di := Option.some_inj.mp (ha.symm.trans hdi)
          subst haeq
          intro c hc
          by_cases hcc : c = column
          · rw [hcc] at hc
            rw [hc] at hnull
            exact absurd hnull (by simp)
          · rw [getVal_setVal_ne _ _ _ _ hcc]
            exact hkept c hc
    · exact h
  · exact h

theorem preservesValid_interpolation (data : List Row) (column : String) :
    PreservesValid data (imputeWithInterpolation data column) := by
  unfold imputeWithInterpolation
  have main : ∀ (is : List ℕ) (acc : List Row), PreservesValid data acc →
      PreservesValid data
        (is.foldl (interpStep (data.map (fun row => interpCell (getVal row column))) column)
          acc) := by
    intro is
    induction is with
    | nil => intro acc h; exact h
    | cons i rest ih =>
        intro acc h
        exact ih _ (preservesValid_interpStep data column i acc h)
  exact main _ data (preservesValid_refl data)

theorem preservesValid_mean (data : List Row) (column : String) :
    PreservesValid data (imputeWithMean data column) := by
  by_cases h0 : (numericValidValues data column).length = 0
  · simp only [imputeWithMean, h0, if_true]
    exact preservesValid_refl data
  · simp only [imputeWithMean, h0, if_false]
    exact preservesValid_fillNulls data column _

theorem preservesValid_median (data : List Row) (column : String) :
    PreservesValid data (imputeWithMedian data column) := by
  by_cases h0 : (sortAsc (numericValidValues data column)).length = 0
  · simp only [imputeWithMedian, h0, if_true]
    exact preservesValid_refl data
  · simp only [imputeWithMedian, h0, if_false]
    exact preservesValid_fillNulls data column _

theorem preservesValid_mode (data : List Row) (column : String) :
    PreservesValid data (imputeWithMode data column) := by
  by_cases h0 : (modeValidValues data column).length = 0
  · simp only [imputeWithMode, h0, if_true]
    exact preservesValid_refl data
  · simp only [imputeWithMode, h0, if_false]
    split
    · exact preservesValid_refl data
    · exact preservesValid_fillNulls data column _

theorem preservesValid_applyStrategy (rows : List Row) (s : ImputationStrategy) :
    PreservesValid rows (applyStrategy rows s) := by
  unfold applyStrategy
  cases s.method
  · exact preservesValid_mean rows s.column
  · exact preservesValid_median rows s.column
  · exact preservesValid_mode rows s.column
  · exact preservesValid_forwardFill rows s.column
  · exact preservesValid_backwardFill rows s.column
  · exact preservesValid_interpolation rows s.column
  · exact preservesValid_fillNulls rows s.column s.customValue

/-! ### C3 -/

/-- The column description of the two-row mutation counterexample. -/
def mutationCexCol : DataColumn := ⟨"a", ColType.number, true, false, ⟨none, none, none, 1, 1⟩⟩

/-- The caller's rows before imputation: a null cell followed by `"1"`. -/
def mutationCexData : List Row := [[("a", Value.null)], [("a", Value.str ("1"))]]

/-- **C3, counterexample.** `imputeMissingData` copies only the array
(`[...data]` is a shallow copy): the row objects are shared, and mean
imputation writes `1` through the shared reference, so after the call the
caller's original array shows `{a: 1}` in its first row — the original rows do
not keep their values.  (`(imputeMissingData ..).1` is the post-call value of
the caller's row objects, per the model of the shared heap.) -/
theorem imputeMissingData_mutates_original_cex :
    (imputeMissingData mutationCexData [mutationCexCol]
        [⟨"a", ImputeMethod.mean, Value.undef⟩]).1 ≠ mutationCexData := by
  decide

/-- **C3, amended.** `imputeMissingData` mutates the caller's shared row
objects in place rather than an isolated copy: after the call the original
array displays exactly the imputed rows (the model's first component), the
row count is unchanged, and the mutation is confined to null/empty cells —
every cell that held a non-null, non-empty value before the call still holds
exactly that value in the corresponding output row. -/
theorem imputeMissingData_shared_rows (data : List Row) (columns : List DataColumn)
    (strategies : List ImputationStrategy) :
    (imputeMissingData data columns strategies).1.length = data.length ∧
    List.Forall₂ cellsKept data (imputeMissingData data columns strategies).1 := by
  have main : ∀ (ss : List ImputationStrategy)
      (st : List Row × List (String × ImputationResult)), PreservesValid data st.1 →
      PreservesValid data
        (ss.foldl (fun st s =>
          if (columns.find? (fun c => c.name = s.column)).isNone then st
          else
            let originalNullCount := countNullValues st.1 s.column
            let rows := applyStrategy st.1 s
            let finalNullCount := countNullValues rows s.column
            (rows, upsertResult st.2 s.column
              ⟨originalNullCount, (originalNullCount : ℤ) - (finalNullCount : ℤ),
                s.method, true⟩)) st).1 := by
    intro ss
    induction ss with
    | nil => intro st h; exact h
    | cons s rest ih =>
        intro st h
        refine ih _ ?_
        by_cases hfind : (columns.find? (fun c => c.name = s.column)).isNone = true
        · simpa [hfind] using h
        · simp only [hfind, if_false]
          exact preservesValid_trans h (preservesValid_applyStrategy st.1 s)
  have h := main strategies (data, []) (preservesValid_refl data)
  exact ⟨(List.Forall₂.length_eq h).symm, h⟩

/-- Witness for C3's amended theorem at the counterexample input: the
non-null cell `{a:"1"}` of the second row is preserved. -/
theorem imputeMissingData_shared_rows_witness :
    (imputeMissingData mutationCexData [mutationCexCol]
        [⟨"a", ImputeMethod.mean, Value.undef⟩]).1.length = mutationCexData.length ∧
    List.Forall₂ cellsKept mutationCexData
      (imputeMissingData mutationCexData [mutationCexCol]
        [⟨"a", ImputeMethod.mean, Value.undef⟩]).1 :=
  imputeMissingData_shared_rows mutationCexData [mutationCexCol]
    [⟨"a", ImputeMethod.mean, Value.undef⟩]

/-! ### C8 -/

/-- Once the forward pass carries a valid `lastValidValue`, every remaining
cell of the column ends up valid. -/
theorem forwardFillAux_all_valid (column : String) :
    ∀ (l : List Row) (v : Value), isNullOrEmpty v = false →
      ∀ r ∈ forwardFillAux column (some v) l, isNullOrEmpty (getVal r column) = false
  | [], _, _ => by simp [forwardFillAux]
  | row :: rest, v, hv => by
      unfold forwardFillAux
      by_cases hnull : isNullOrEmpty (getVal row column) = true
      · rw [if_pos hnull]
        intro r hr
        rcases List.mem_cons.mp hr with rfl | hr
        · rw [getVal_setVal_self]; exact hv
        · exact forwardFillAux_all_valid column rest v hv r hr
      · rw [if_neg hnull]
        intro r hr
        rcases List.mem_cons.mp hr with rfl | hr
        · exact Bool.eq_false_iff.mpr hnull
        · exact forwardFillAux_all_valid column rest _ (Bool.eq_false_iff.mpr hnull) r hr

/-- After the forward pass, the last row of the column is valid, provided some
input row is valid (or a valid carry entered a nonempty list). -/
theorem forwardFillAux_reverse_head (column : String) :
    ∀ (l : List Row) (last : Option Value),
      ((∃ r ∈ l, isNullOrEmpty (getVal r column) = false) ∨
        (l ≠ [] ∧ ∃ v, last = some v ∧ isNullOrEmpty v = false)) →
      ∃ r₀ t, (forwardFillAux column last l).reverse = r₀ :: t ∧
        isNullOrEmpty (getVal r₀ column) = false
  | [], last, h => by
      rcases h with ⟨r, hr, _⟩ | ⟨hne, _⟩
      · exact absurd hr (List.not_mem_nil r)
      · exact absurd rfl hne
  | row :: rest, last, h => by
      have hlen : ∀ (last' : Option Value), rest ≠ [] →
          forwardFillAux column last' rest ≠ [] := by
        intro last' hne hcontra
        have := List.Forall₂.length_eq (preservesValid_forwardFillAux column last' rest)
        rw [hcontra] at this
        exact hne (List.length_eq_zero.mp (by simpa using this))
      unfold forwardFillAux
      by_cases hnull : isNullOrEmpty (getVal row column) = true
      · rw [if_pos hnull]
        cases last with
        | some v =>
            cases hrest : rest with
            | nil =>
                rcases h with ⟨r, hr, hval⟩ | ⟨_, v', hv', hvval⟩
                · rw [hrest] at hr
                  rcases List.mem_cons.mp hr with rfl | hr
                  · rw [hnull] at hval; exact absurd hval (by simp)
                  · exact absurd hr (List.not_mem_nil r)
                · refine ⟨setVal row column v, [], by simp [forwardFillAux], ?_⟩
                  rw [getVal_setVal_self]
                  exact (Option.some_inj.mp hv') ▸ hvval
            | cons r2 rest2 =>
                rw [← hrest]
                have hne : rest ≠ [] := by rw [hrest]; exact List.cons_ne_nil _ _
                have hih : (∃ r ∈ rest, isNullOrEmpty (getVal r column) = false) ∨
                    (rest ≠ [] ∧ ∃ w, (some v : Option Value) = some w ∧
                      isNullOrEmpty w = false) := by
                  rcases h with ⟨r, hr, hval⟩ | ⟨_, v', hv', hvval⟩
                  · rcases List.mem_cons.mp hr with rfl | hr
                    · rw [hnull] at hval; exact absurd hval (by simp)
                    · exact Or.inl ⟨r, hr, hval⟩
                  · exact Or.inr ⟨hne, v, rfl, (Option.some_inj.mp hv') ▸ hvval⟩
                obtain ⟨r₀, t, hrev, hval⟩ :=
                  forwardFillAux_reverse_head column rest (some v) hih
                exact ⟨r₀, t ++ [setVal row column v],
                  by rw [List.reverse_cons, hrev]; rfl, hval⟩
        | none =>
            have hexrest : ∃ r ∈ rest, isNullOrEmpty (getVal r column) = false := by
              rcases h with ⟨r, hr, hval⟩ | ⟨_, v', hv', _⟩
              · rcases List.mem_cons.mp hr with rfl | hr
                · rw [hnull] at hval; exact absurd hval (by simp)
                · exact ⟨r, hr, hval⟩
              · exact absurd hv' (by simp)
            obtain ⟨r₀, t, hrev, hval⟩ :=
              forwardFillAux_reverse_head column rest none (Or.inl hexrest)
            exact ⟨r₀, t ++ [row], by rw [List.reverse_cons, hrev]; rfl, hval⟩
      · rw [if_neg hnull]
        cases hrest : rest with
        | nil => exact ⟨row, [], by simp [forwardFillAux], Bool.eq_false_iff.mpr hnull⟩
        | cons r2 rest2 =>
            rw [← hrest]
            have hne : rest ≠ [] := by rw [hrest]; exact List.cons_ne_nil _ _
            obtain ⟨r₀, t, hrev, hval⟩ := forwardFillAux_reverse_head column rest
              (some (getVal row column))
              (Or.inr ⟨hne, getVal row column, rfl, Bool.eq_false_iff.mpr hnull⟩)
            exact ⟨r₀, t ++ [row], by rw [List.reverse_cons, hrev]; rfl, hval⟩

/-- **C8.** Applying `forward_fill` and then `backward_fill` to a column
leaves no null/empty cell in it, provided at least one cell of the column was
not null/empty before the two passes. -/
theorem forward_backward_fill_no_nulls (data : List Row) (column : String)
    (h : ∃ r ∈ data, isNullOrEmpty (getVal r column) = false) :
    ∀ r ∈ imputeWithBackwardFill (imputeWithForwardFill data column) column,
      isNullOrEmpty (getVal r column) = false := by
  obtain ⟨r₀, t, hrev, hvalid⟩ := forwardFillAux_reverse_head column data none (Or.inl h)
  intro r hr
  unfold imputeWithBackwardFill imputeWithForwardFill at hr
  rw [List.mem_reverse] at hr
  rw [hrev] at hr
  unfold forwardFillAux at hr
  rw [if_neg (by rw [hvalid]; simp)] at hr
  rcases List.mem_cons.mp hr with rfl | hr
  · exact hvalid
  · exact forwardFillAux_all_valid column t _ hvalid r hr

/-- The rows of C8's witness: a leading null filled from the right. -/
def fillWitnessData : List Row := [[("a", Value.null)], [("a", Value.str ("1"))]]

/-- Witness for C8: on `[{a:null},{a:"1"}]` the hypothesis (some valid cell)
holds and the two passes leave no null cell. -/
theorem forward_backward_fill_no_nulls_witness :
    (∃ r ∈ fillWitnessData, isNullOrEmpty (getVal r ("a")) = false) ∧
    ∀ r ∈ imputeWithBackwardFill (imputeWithForwardFill fillWitnessData ("a")) "a",
      isNullOrEmpty (getVal r ("a")) = false :=
  ⟨by decide, forward_backward_fill_no_nulls fillWitnessData ("a") (by decide)⟩

/-! ### C5 and C10 -/

/-- Largest count appearing in a frequency record. -/
def maxCount (l : List (String × ℕ)) : ℕ := l.foldr (fun e m => max e.2 m) 0

/-- The head of the stable descending sort is the first enumerated entry that
attains the maximal count. -/
theorem stableSortDesc_head :
    ∀ l : List (String × ℕ), l ≠ [] →
      ∃ k : String, (stableSortDesc l).head? = some (k, maxCount l) ∧
        l.find? (fun e => e.2 = maxCount l) = some (k, maxCount l)
  | [], h => absurd rfl h
  | x :: xs, _ => by
      cases hxs : xs with
      | nil =>
          refine ⟨x.1, ?_, ?_⟩ <;>
            simp [stableSortDesc, insertDesc, maxCount, List.find?]
      | cons y ys =>
          rw [← hxs]
          have hne : xs ≠ [] := by rw [hxs]; exact List.cons_ne_nil _ _
          obtain ⟨k, hhead, hfind⟩ := stableSortDesc_head xs hne
          have hmax : maxCount (x :: xs) = max x.2 (maxCount xs) := rfl
          cases hsort : stableSortDesc xs with
          | nil => rw [hsort] at hhead; exact absurd hhead (by simp)
          | cons m rest =>
              rw [hsort] at hhead
              have hm : m = (k, maxCount xs) := by simpa using hhead
              by_cases hle : maxCount xs ≤ x.2
              · refine ⟨x.1, ?_, ?_⟩
                · have : maxCount (x :: xs) = x.2 := by
                    rw [hmax]; exact Nat.max_eq_left hle
                  rw [this]
                  simp only [stableSortDesc, hsort, insertDesc, hm]
                  rw [if_pos (by simpa using hle)]
                  rfl
                · have : maxCount (x :: xs) = x.2 := by
                    rw [hmax]; exact Nat.max_eq_left hle
                  rw [this]
                  simp [List.find?]
              · have hlt : x.2 < maxCount xs := Nat.lt_of_not_le hle
                have hmx : maxCount (x :: xs) = maxCount xs := by
                  rw [hmax]; exact Nat.max_eq_right (Nat.le_of_lt hlt)
                refine ⟨k, ?_, ?_⟩
                · rw [hmx]
                  have hcond : ¬ ((k, maxCount xs).2 ≤ x.2) := by simpa using hle
                  simp [stableSortDesc, hsort, insertDesc, hm, hcond]
                · rw [hmx]
                  have hxne : (decide (x.2 = maxCount xs)) = false := by
                    simp [Nat.ne_of_lt hlt]
                  simp only [List.find?, hxne]
                  exact hfind

/-- `tabulate` never shrinks its accumulator. -/
theorem tabulate_foldl_length_le (ks : List String) :
    ∀ acc : List (String × ℕ), acc.length ≤
      (ks.foldl (fun acc k =>
        if acc.any (fun e => e.1 = k) then
          acc.map (fun e => if e.1 = k then (e.1, e.2 + 1) else e)
        else acc ++ [(k, 1)]) acc).length := by
  induction ks with
  | nil => intro acc; exact Nat.le_refl _
  | cons k rest ih =>
      intro acc
      refine Nat.le_trans ?_ (ih _)
      by_cases hany : acc.any (fun e => e.1 = k) = true
      · simp [hany]
      · simp [hany]

theorem tabulate_ne_nil {ks : List String} (h : ks ≠ []) : tabulate ks ≠ [] := by
  cases ks with
  | nil => exact absurd rfl h
  | cons k rest =>
      unfold tabulate
      intro hcontra
      have h1 := tabulate_foldl_length_le rest [(k, 1)]
      rw [show (k :: rest).foldl (fun acc k =>
          if acc.any (fun e => e.1 = k) then
            acc.map (fun e => if e.1 = k then (e.1, e.2 + 1) else e)
          else acc ++ [(k, 1)]) [] = rest.foldl (fun acc k =>
          if acc.any (fun e => e.1 = k) then
            acc.map (fun e => if e.1 = k then (e.1, e.2 + 1) else e)
          else acc ++ [(k, 1)]) [(k, 1)] from rfl] at hcontra
      rw [hcontra] at h1
      simp at h1

/-- Length is preserved by the key-order insertion sort. -/
theorem sortByKey_length : ∀ l : List (String × ℕ), (sortByKey l).length = l.length := by
  have hins : ∀ (x : String × ℕ) (l : List (String × ℕ)),
      (insertByKey x l).length = l.length + 1 := by
    intro x l
    induction l with
    | nil => rfl
    | cons y ys ih =>
        unfold insertByKey
        split
        · rfl
        · simpa using ih
  intro l
  induction l with
  | nil => rfl
  | cons x xs ih => rw [sortByKey, hins, ih]; rfl

theorem jsObjectEntries_ne_nil {rec : List (String × ℕ)} (h : rec ≠ []) :
    jsObjectEntries rec ≠ [] := by
  unfold jsObjectEntries
  intro hcontra
  rw [List.append_eq_nil] at hcontra
  have hfil : rec.filter (fun e => isArrayIndexKey e.1) = [] := by
    have hlen := sortByKey_length (rec.filter (fun e => isArrayIndexKey e.1))
    rw [hcontra.1] at hlen
    exact List.length_eq_zero.mp hlen.symm
  have hp := List.filter_append_perm (fun e => isArrayIndexKey e.1) rec
  rw [hfil, hcontra.2] at hp
  exact h (hp.nil_eq).symm

/-- Length is preserved by the descending insertion sort. -/
theorem stableSortDesc_length : ∀ l : List (String × ℕ),
    (stableSortDesc l).length = l.length := by
  have hins : ∀ (x : String × ℕ) (l : List (String × ℕ)),
      (insertDesc x l).length = l.length + 1 := by
    intro x l
    induction l with
    | nil => rfl
    | cons y ys ih =>
        unfold insertDesc
        split
        · rfl
        · simpa using ih
  intro l
  induction l with
  | nil => rfl
  | cons x xs ih => rw [stableSortDesc, hins, ih]; rfl

/-- In a zip of a list with its own map, the second component is the image of
the first. -/
theorem zip_map_snd {α β : Type _} {f : α → β} :
    ∀ {l : List α} (p : α × β), p ∈ l.zip (l.map f) → p.2 = f p.1
  | [], p, h => absurd h (List.not_mem_nil p)
  | x :: xs, p, h => by
      rw [List.map_cons, List.zip_cons_cons] at h
      rcases List.mem_cons.mp h with rfl | h
      · rfl
      · exact zip_map_snd p h

/-- The `Object.entries` enumeration of the mode frequency record. -/
def modeEntries (data : List Row) (column : String) : List (String × ℕ) :=
  jsObjectEntries (tabulate ((modeValidValues data column).map jsStringOf))

/-- Shared shape lemma for mode imputation: when at least one valid value
exists, the written mode key is the first entry of the `Object.entries`
enumeration attaining the maximal frequency, and the pass is exactly the
null-cell fill with that key as a string. -/
theorem imputeWithMode_head_fill (data : List Row) (column : String)
    (h : modeValidValues data column ≠ []) :
    ∃ m : String,
      (modeEntries data column).find?
          (fun e => e.2 = maxCount (modeEntries data column)) =
        some (m, maxCount (modeEntries data column)) ∧
      imputeWithMode data column = fillNulls data column (Value.str m) := by
  have hkne : (modeValidValues data column).map jsStringOf ≠ [] := by
    intro hc; exact h (List.map_eq_nil_iff.mp hc)
  have hene : modeEntries data column ≠ [] := jsObjectEntries_ne_nil (tabulate_ne_nil hkne)
  obtain ⟨k, hhead, hfind⟩ := stableSortDesc_head _ hene
  cases hsort : stableSortDesc (modeEntries data column) with
  | nil => rw [hsort] at hhead; exact absurd hhead (by simp)
  | cons m rest =>
      rw [hsort] at hhead
      have hm : m = (k, maxCount (modeEntries data column)) := by simpa using hhead
      refine ⟨k, hfind, ?_⟩
      have hlen : ¬ (modeValidValues data column).length = 0 := by
        simpa [List.length_eq_zero] using h
      simp only [imputeWithMode, if_neg hlen]
      rw [show jsObjectEntries (tabulate (List.map jsStringOf (modeValidValues data column))) =
        modeEntries data column from rfl, hsort, hm]

/-- The data of the mode tie counterexample: `"2"` is encountered first,
`"1"` second, both with frequency 1. -/
def modeTieData : List Row := [[("a", Value.str ("2"))], [("a", Value.str ("1"))], [("a", Value.null)]]

/-- **C5, counterexample.** With values `["2", "1"]` tied at frequency 1, mode
imputation fills the null cell with `"1"`, not with the first-encountered
`"2"`: `Object.entries` enumerates array-index-like keys (`"1"`, `"2"`) in
ascending numeric order before insertion order, and the required-stable
descending sort keeps that enumeration order among equal counts. -/
theorem imputeWithMode_tie_not_first_encountered_cex :
    imputeWithMode modeTieData ("a") =
      [[("a", Value.str ("2"))], [("a", Value.str ("1"))], [("a", Value.str ("1"))]] := by
  decide

/-- **C5, amended.** For every column and data array with at least one valid
value, mode imputation writes the most frequent stringified value into every
null/empty cell, with ties broken by the `Object.entries` enumeration order —
integer-like keys in ascending numeric order first, then the remaining keys in
first-encounter order (so first-encountered wins only among non-integer-like
keys): the written key is the first enumerated entry attaining the maximal
count, and the pass is exactly the null-cell fill with that key. -/
theorem imputeWithMode_mode_characterization (data : List Row) (column : String)
    (h : modeValidValues data column ≠ []) :
    ∃ m : String,
      (modeEntries data column).find?
          (fun e => e.2 = maxCount (modeEntries data column)) =
        some (m, maxCount (modeEntries data column)) ∧
      imputeWithMode data column = fillNulls data column (Value.str m) :=
  imputeWithMode_head_fill data column h

/-- The rows of C5's witness: `"x"` has frequency 2, `"y"` frequency 1. -/
def modeWitnessData : List Row :=
  [[("a", Value.str ("x"))], [("a", Value.str ("x"))], [("a", Value.str ("y"))],
   [("a", Value.null)]]

/-- Witness for C5's amended theorem on a dataset with a unique mode. -/
theorem imputeWithMode_mode_characterization_witness :
    (modeValidValues modeWitnessData ("a") ≠ []) ∧
    ∃ m : String,
      (modeEntries modeWitnessData ("a")).find?
          (fun e => e.2 = maxCount (modeEntries modeWitnessData ("a"))) =
        some (m, maxCount (modeEntries modeWitnessData ("a"))) ∧
      imputeWithMode modeWitnessData ("a") = fillNulls modeWitnessData ("a") (Value.str m) :=
  ⟨by decide, imputeWithMode_mode_characterization modeWitnessData ("a") (by decide)⟩

/-- **C10.** For every column and data array with at least one non-null,
non-empty value, `imputeWithMode` writes a *string* into every null/empty
cell: the filled value is the stringified key `String(v)` of the winning
value, so mode imputation on a numeric or boolean column fills missing cells
with a string rather than a value of the column's inferred type. -/
theorem imputeWithMode_fills_string (data : List Row) (column : String)
    (h : modeValidValues data column ≠ []) :
    ∃ m : String, imputeWithMode data column = fillNulls data column (Value.str m) ∧
      ∀ p ∈ data.zip (imputeWithMode data column),
        isNullOrEmpty (getVal p.1 column) = true → getVal p.2 column = Value.str m := by
  obtain ⟨m, _, hfill⟩ := imputeWithMode_head_fill data column h
  refine ⟨m, hfill, ?_⟩
  intro p hp hnull
  rw [hfill] at hp
  have hsnd := zip_map_snd p hp
  rw [hsnd, if_pos hnull, getVal_setVal_self]

/-- The rows of C10's witness: a numeric column whose mode fill is the
string `"1"`, not the number `1`. -/
def numericModeData : List Row :=
  [[("a", Value.num (some 1))], [("a", Value.num (some 1))], [("a", Value.null)]]

/-- Witness for C10 on a numeric column: the null cell receives the string
`"1"`. -/
theorem imputeWithMode_fills_string_witness :
    (modeValidValues numericModeData ("a") ≠ []) ∧
    ∃ m : String,
      imputeWithMode numericModeData ("a") = fillNulls numericModeData ("a") (Value.str m) ∧
      ∀ p ∈ numericModeData.zip (imputeWithMode numericModeData ("a")),
        isNullOrEmpty (getVal p.1 ("a")) = true → getVal p.2 ("a") = Value.str m :=
  ⟨by decide, imputeWithMode_fills_string numericModeData ("a") (by decide)⟩

/-! ### C1, amended -/

/-- Bounds for the floor of a normalized fraction: `0 ≤ N` and `N < 101·D`
give a floor between 0 and 100. -/
theorem fdiv_normPair_range {N : ℤ} {D : ℕ} (hD : D ≠ 0) (hN : 0 ≤ N)
    (hlt : N < 101 * (D : ℤ)) :
    0 ≤ (Q.normPair N D).n.fdiv ((Q.normPair N D).d : ℤ) ∧
      (Q.normPair N D).n.fdiv ((Q.normPair N D).d : ℤ) ≤ 100 := by
  unfold Q.normPair
  rw [if_neg hD]
  simp only
  set g := Nat.gcd N.natAbs D with hg
  have hgpos : 0 < g := Nat.gcd_pos_of_pos_right _ (Nat.pos_of_ne_zero hD)
  have hgdN : (g : ℤ) ∣ N :=
    dvd_trans (Int.natCast_dvd_natCast.mpr (Nat.gcd_dvd_left _ _)) (Int.natAbs_dvd.mpr dvd_rfl)
  have hgdD : g ∣ D := Nat.gcd_dvd_right _ _
  obtain ⟨N', hN'⟩ := hgdN
  obtain ⟨D', hD'⟩ := hgdD
  have hNdiv : N / (g : ℤ) = N' := by
    rw [hN']; exact Int.mul_ediv_cancel_left _ (Int.natCast_ne_zero.mpr hgpos.ne')
  have hDdiv : D / g = D' := by
    rw [hD']; exact Nat.mul_div_cancel_left _ hgpos
  rw [hNdiv, hDdiv]
  have hD'pos : 0 < D' := by
    rcases Nat.eq_zero_or_pos D' with h0 | h
    · rw [h0, Nat.mul_zero] at hD'; exact absurd hD' hD
    · exact h
  have hN'0 : 0 ≤ N' := by
    by_contra hneg
    push_neg at hneg
    have : N < 0 := by
      rw [hN']
      exact mul_neg_of_pos_of_neg (by exact_mod_cast hgpos) hneg
    omega
  have hN'lt : N' < 101 * (D' : ℤ) := by
    have hexp : N = (g : ℤ) * N' := hN'
    have hexp2 : (D : ℤ) = (g : ℤ) * (D' : ℤ) := by exact_mod_cast hD'
    rw [hexp, hexp2] at hlt
    have : (g : ℤ) * N' < (g : ℤ) * (101 * (D' : ℤ)) := by ring_nf at hlt ⊢; linarith
    exact lt_of_mul_lt_mul_left this (by positivity)
  rw [Int.fdiv_eq_ediv _ (by positivity)]
  constructor
  · exact Int.ediv_nonneg hN'0 (by positivity)
  · have : N' / (D' : ℤ) < 101 := by
      rw [Int.ediv_lt_iff_lt_mul (by exact_mod_cast hD'pos)]
      linarith
    omega

/-- `Math.round` of a rational clamped into `[0, 100]` is an integer in
`[0, 100]`. -/
theorem roundQ_range {x : Q} (hd : 0 < x.d) (h0 : Q.ble 0 x = true)
    (h100 : Q.ble x 100 = true) : 0 ≤ roundQ x ∧ roundQ x ≤ 100 := by
  have hn0 : 0 ≤ x.n := by
    have h := h0
    simp only [Q.ble, decide_eq_true_eq, show (0 : Q).n = 0 from rfl,
      show (0 : Q).d = 1 from rfl] at h
    simpa using h
  have hn100 : x.n ≤ 100 * (x.d : ℤ) := by
    have h := h100
    simp only [Q.ble, decide_eq_true_eq, show (100 : Q).n = 100 from rfl,
      show (100 : Q).d = 1 from rfl] at h
    simpa using h
  have hdz : x.d * 2 ≠ 0 := by omega
  have hreq : Q.add x ⟨1, 2⟩ = Q.normPair (x.n * 2 + 1 * (x.d : ℤ)) (x.d * 2) := rfl
  unfold roundQ Q.floor
  rw [hreq]
  refine fdiv_normPair_range hdz (by omega) ?_
  have hdc : (0 : ℤ) < (x.d : ℤ) := by exact_mod_cast hd
  push_cast
  linarith

/-- The clamp-and-round tail of the score computation produces an integer
score in `[0, 100]` whenever its input is finite. -/
theorem jsMin_fin (p q : Q) :
    jsMin (.fin p) (.fin q) = if Q.ble p q then .fin p else .fin q := rfl

theorem jsMax_fin (p q : Q) :
    jsMax (.fin p) (.fin q) = if Q.ble p q then .fin q else .fin p := rfl

theorem jsRound_clamp_range {x : Q} (hd : 0 < x.d) :
    ∃ k : ℤ, jsRound (jsMax (.fin 0) (jsMin (.fin 100) (.fin x))) = JsNum.fin (Q.ofInt k) ∧
      0 ≤ k ∧ k ≤ 100 := by
  rw [jsMin_fin]
  by_cases hble1 : Q.ble 100 x = true
  · rw [if_pos hble1]
    exact ⟨100, by decide, by omega, by omega⟩
  · rw [if_neg hble1]
    have hxle : Q.ble x 100 = true := Q.ble_of_not_ble (Bool.eq_false_iff.mpr hble1)
    rw [jsMax_fin]
    by_cases hble0 : Q.ble 0 x = true
    · rw [if_pos hble0]
      obtain ⟨hlo, hhi⟩ := roundQ_range hd hble0 hxle
      exact ⟨roundQ x, rfl, hlo, hhi⟩
    · rw [if_neg hble0]
      exact ⟨0, by decide, by omega, by omega⟩

/-- Division of counters with a nonzero denominator is finite. -/
theorem jsDivNat_ne_zero (a : ℕ) {b : ℕ} (hb : b ≠ 0) :
    jsDivNat a b = .fin (Q.div (Q.ofNat a) (Q.ofNat b)) := by
  unfold jsDivNat; rw [if_neg hb]

/-- **C1, amended.** Whenever `originalRowCount ≠ 0` and the dataset retains
at least one row and one column (so both score divisions are finite), the
reported `qualityScore` is an integer in `[0, 100]` — the clamp
`Math.max(0, Math.min(100, ·))` followed by `Math.round` guarantees the
range.  When `originalRowCount = 0` or `totalRows × totalColumns = 0` the
unguarded `0/0` instead yields a `NaN` score (see the counterexample). -/
theorem generateQualityReport_score_in_range (data : List Row)
    (columns : List DataColumn) (originalRowCount duplicateCount : ℕ)
    (horig : originalRowCount ≠ 0) (hdata : data ≠ []) (hcols : columns ≠ []) :
    ∃ k : ℤ,
      (generateQualityReport data columns originalRowCount duplicateCount).qualityScore
        = JsNum.fin (Q.ofInt k) ∧ 0 ≤ k ∧ k ≤ 100 := by
  have hprod : data.length * columns.length ≠ 0 :=
    Nat.mul_ne_zero (fun h => hdata (List.length_eq_zero.mp h))
      (fun h => hcols (List.length_eq_zero.mp h))
  simp only [generateQualityReport, jsDivNat_ne_zero _ horig, jsDivNat_ne_zero _ hprod,
    jsMulPos, jsSub]
  exact jsRound_clamp_range (Q.sub_d_pos _ _)

/-- Witness for C1's amended theorem on a one-row, one-column dataset. -/
theorem generateQualityReport_score_in_range_witness :
    ((1 : ℕ) ≠ 0 ∧ ([[("a", Value.null)]] : List Row) ≠ [] ∧
      ([allNullCol] : List DataColumn) ≠ []) ∧
    ∃ k : ℤ,
      (generateQualityReport [[("a", Value.null)]] [allNullCol] 1 0).qualityScore
        = JsNum.fin (Q.ofInt k) ∧ 0 ≤ k ∧ k ≤ 100 :=
  ⟨⟨by decide, by decide, by decide⟩,
   generateQualityReport_score_in_range [[("a", Value.null)]] [allNullCol] 1 0
     (by decide) (by decide) (by decide)⟩

/-! ### C9 -/

/-- A zero Pearson denominator (zero variance in either column over the
co-observed rows) yields correlation 0, not a division fault, for any host
square root with `sqrt 0 = 0`. -/
theorem pearson_zero_of_denomSq_zero (sqrt : Q → Q) (hsq0 : sqrt 0 = 0)
    (x y : List Q) (h : pearsonDenomSq x y = 0) :
    calculatePearsonCorrelation sqrt x y = 0 := by
  by_cases hn : min x.length y.length = 0
  · simp only [calculatePearsonCorrelation]
    rw [if_pos hn]
  · simp only [calculatePearsonCorrelation]
    rw [if_neg hn, h, hsq0, if_pos rfl]

/-- The content of C9: (a) every `i < j` pair of numeric columns with more
than one co-observation contributes its Pearson entry to the result; (b)
every entry of the result arises from such a pair — in particular pairs with
fewer than 2 co-observations are skipped — and carries correlation 0 whenever
the squared denominator (the product of the two variance terms) is zero. -/
def corrSpec (sqrt : Q → Q) (data : List Row) (columns : List DataColumn) : Prop :=
  (∀ pr ∈ allPairs (columns.filter (fun c => c.type = ColType.number)),
      1 < (corrPairs data pr.1.name pr.2.name).length →
      (⟨pr.1.name, pr.2.name,
        calculatePearsonCorrelation sqrt
          ((corrPairs data pr.1.name pr.2.name).map (fun p => p.1))
          ((corrPairs data pr.1.name pr.2.name).map (fun p => p.2))⟩ : CorrEntry)
        ∈ calculateAdvancedCorrelations sqrt data columns) ∧
  (∀ e ∈ calculateAdvancedCorrelations sqrt data columns,
      ∃ pr ∈ allPairs (columns.filter (fun c => c.type = ColType.number)),
        e.column1 = pr.1.name ∧ e.column2 = pr.2.name ∧
        1 < (corrPairs data pr.1.name pr.2.name).length ∧
        (pearsonDenomSq ((corrPairs data pr.1.name pr.2.name).map (fun p => p.1))
            ((corrPairs data pr.1.name pr.2.name).map (fun p => p.2)) = 0 →
          e.correlation = 0))

/-- **C9.** `calculateAdvancedCorrelations` computes a Pearson correlation for
every unordered (`i < j`) pair of distinct numeric columns over the rows where
both `Number` conversions are non-`NaN`, skips any pair with fewer than 2 such
co-observations, and returns correlation 0 — never a division fault — whenever
the correlation denominator is zero, i.e. when either column has zero variance
over the co-observed rows.  Stated for any host square root with
`sqrt 0 = 0`. -/
theorem calculateAdvancedCorrelations_spec (sqrt : Q → Q) (data : List Row)
    (columns : List DataColumn) (hsq0 : sqrt 0 = 0) :
    corrSpec sqrt data columns := by
  constructor
  · intro pr hpr hlen
    unfold calculateAdvancedCorrelations
    refine List.mem_filterMap.mpr ⟨pr, hpr, ?_⟩
    simp only
    rw [if_pos hlen]
  · intro e he
    unfold calculateAdvancedCorrelations at he
    obtain ⟨pr, hpr, heq⟩ := List.mem_filterMap.mp he
    simp only at heq
    by_cases hlen : 1 < (corrPairs data pr.1.name pr.2.name).length
    · rw [if_pos hlen] at heq
      have he2 := (Option.some_inj.mp heq).symm
      refine ⟨pr, hpr, ?_, ?_, hlen, ?_⟩
      · rw [he2]
      · rw [he2]
      · intro hdz
        rw [he2]
        exact pearson_zero_of_denomSq_zero sqrt hsq0 _ _ hdz
    · rw [if_neg hlen] at heq
      exact absurd heq (Option.noConfusion)

/-- Two numeric columns for C9's witness; `x` has zero variance over the
co-observed rows. -/
def corrWitnessCols : List DataColumn :=
  [⟨"x", ColType.number, false, false, ⟨none, none, none, 0, 1⟩⟩,
   ⟨"y", ColType.number, false, true, ⟨none, none, none, 0, 2⟩⟩]

/-- Rows for C9's witness: `x = [1,1]`, `y = [1,2]`. -/
def corrWitnessData : List Row :=
  [[("x", Value.num (some 1)), ("y", Value.num (some 1))],
   [("x", Value.num (some 1)), ("y", Value.num (some 2))]]

/-- Witness for C9, instantiated with the identity as the abstract square
root (which satisfies `sqrt 0 = 0`). -/
theorem calculateAdvancedCorrelations_spec_witness :
    ((fun q : Q => q) 0 = 0) ∧ corrSpec (fun q : Q => q) corrWitnessData corrWitnessCols :=
  ⟨rfl, calculateAdvancedCorrelations_spec (fun q : Q => q) corrWitnessData
    corrWitnessCols rfl⟩
